import Mathlib

/-!
# Query filter entries (`core/query/queryentry.h`)

A shallow embedding of the predicate leaf `QueryEntry` and of the predicate
tree `QueryEntries` of `cpp_src/core/query/queryentry.h`.

* The three constructors of `QueryEntry` and the default member initialisers
  are translated from the header.
* `Variant` (the element type of `VariantArray`) is declared in
  `core/keyvalue/variant.h`; it is a type parameter `V` here.
* `IndexValueType::NotSet` is declared outside the header; it is a parameter
  `NotSet` of the definitions that use it.
-/

namespace reindexer

/-- Modelled from the spec: the enumeration `CondType` is declared outside
`queryentry.h` (the header only names `CondAny` and `CondEq`). The members are
the closed set of comparison kinds of the data model: Any, Eq, Lt, Le, Gt, Ge,
Range, Set, AllSet, Empty, Like. -/
inductive CondType where
  | CondAny
  | CondEq
  | CondLt
  | CondLe
  | CondGt
  | CondGe
  | CondRange
  | CondSet
  | CondAllSet
  | CondEmpty
  | CondLike
  deriving DecidableEq, Repr

/-- Modelled from the spec: the enumeration `OpType` is declared outside
`queryentry.h` (the header only names `OpAnd`). Logical composition is
`OpAnd | OpOr | OpNot`. -/
inductive OpType where
  | OpOr
  | OpAnd
  | OpNot
  deriving DecidableEq, Repr

open CondType OpType

/-- The record `struct QueryEntry`: the data members in declaration order.
`values` is the `VariantArray`, a sequence of `V`. -/
structure QueryEntry (V : Type) where
  index : String
  idxNo : Int
  condition : CondType
  distinct : Bool
  values : List V
  joinIndex : Int
  deriving DecidableEq, Repr

namespace QueryEntry

/-- The constant `const static int kNoJoins = -1`. -/
def kNoJoins : Int := -1

/-- The constructor `QueryEntry() = default`: every member takes its default
member initialiser (`index` and `values` are empty containers). -/
def mkDefault {V : Type} (NotSet : Int) : QueryEntry V :=
  { index := "", idxNo := NotSet, condition := CondAny, distinct := false,
    values := [], joinIndex := kNoJoins }

/-- The constructor `QueryEntry(int joinIdx) : joinIndex(joinIdx) {}`: only
`joinIndex` is initialised from the argument, the other members keep their
default member initialisers. -/
def mkJoin {V : Type} (NotSet : Int) (joinIdx : Int) : QueryEntry V :=
  { index := "", idxNo := NotSet, condition := CondAny, distinct := false,
    values := [], joinIndex := joinIdx }

/-- The constructor
`QueryEntry(CondType cond, const string &idx, int idxN, bool dist = false)
  : index(idx), idxNo(idxN), condition(cond), distinct(dist) {}`:
`values` and `joinIndex` keep their default member initialisers. -/
def mkCond {V : Type} (cond : CondType) (idx : String) (idxN : Int)
    (dist : Bool := false) : QueryEntry V :=
  { index := idx, idxNo := idxN, condition := cond, distinct := dist,
    values := [], joinIndex := kNoJoins }

/-- A leaf is a join placeholder when its `joinIndex` is not the sentinel
`kNoJoins`: the data model keeps `joinIndex` at `NoJoins` unless the leaf
references a join clause by position. -/
def isJoinPlaceholder {V : Type} (e : QueryEntry V) : Prop :=
  e.joinIndex ≠ kNoJoins

/-- Assignment to the public data member `values` of an already constructed
leaf (no constructor takes the operands). -/
def withValues {V : Type} (e : QueryEntry V) (vs : List V) : QueryEntry V :=
  { e with values := vs }

end QueryEntry

/-- Operand counts the data model attaches to a comparison kind: `Range`
takes exactly 2, `Eq` exactly 1, `Any` and `Empty` take 0. The data model
states no count for the other kinds. -/
def requiredArity : CondType → Option Nat
  | CondEq => some 1
  | CondRange => some 2
  | CondAny => some 0
  | CondEmpty => some 0
  | _ => none

/-- A leaf respects the arity of its condition: when the condition has a
required operand count, the value list has exactly that length. -/
def arityOk {V : Type} (e : QueryEntry V) : Prop :=
  ∀ n, requiredArity e.condition = some n → e.values.length = n

/-! ## Collaborators of the evaluation -/

/-- Modelled from the spec: the typed scalar (`Variant`, declared in
`core/keyvalue/variant.h`) is an external collaborator that supports equality
and ordering comparisons; `asString` tells the string-typed scalars, the only
ones a `Like` pattern applies to. -/
class TypedValue (V : Type) extends LinearOrder V where
  asString : V → Option String

/-- Modelled from the spec: the schema (`TagsMatcher`, only forward-declared in
the header) resolves a field name to the slot holding it; slot `i` belongs to
the `i`-th name. -/
structure TagsMatcher where
  names : List String

/-- Modelled from the spec: the row (`ConstPayload`, only forward-declared in
the header) gives read-only, multi-valued access by slot, and carries the
join-satisfaction result the join subsystem computed for the row. -/
structure ConstPayload (V : Type) where
  slots : List (List V)
  joinSatisfied : Int → Bool

/-- Modelled from the spec: `resolve(fieldName, row)` yields zero or more
scalar values, or nothing when the name is unknown to the schema or the row
has no such slot. -/
def resolve {V : Type} (tm : TagsMatcher) (pl : ConstPayload V) (name : String) :
    Option (List V) :=
  match tm.names.indexOf? name with
  | none => none
  | some slot => pl.slots.get? slot

/-- Modelled from the spec: `Like` pattern match with `_` for one character and
`%` for any run of characters, case-sensitive. The first argument is the
pattern. -/
def likeMatch : List Char → List Char → Bool
  | [], [] => true
  | [], _ :: _ => false
  | p :: ps, [] => p == '%' && likeMatch ps []
  | p :: ps, c :: cs =>
    if p == '%' then likeMatch ps (c :: cs) || likeMatch (p :: ps) cs
    else (p == '_' || p == c) && likeMatch ps cs
termination_by p s => p.length + s.length

/-- Modelled from the spec: comparison of the resolved values `vs` of a field
against the operands of a leaf, per comparison kind. A multi-valued field
satisfies an ordering or equality test when ANY element does. A leaf whose
operand count does not fit its kind has nothing to compare with and is not
satisfied. -/
def compareValues {V : Type} [TypedValue V] (cond : CondType) (vs operands : List V) : Bool :=
  match cond with
  | CondAny => !vs.isEmpty
  | CondEmpty => vs.isEmpty
  | CondEq => match operands with
    | [x] => vs.any (fun v => decide (v = x))
    | _ => false
  | CondLt => match operands with
    | [x] => vs.any (fun v => decide (v < x))
    | _ => false
  | CondLe => match operands with
    | [x] => vs.any (fun v => decide (v ≤ x))
    | _ => false
  | CondGt => match operands with
    | [x] => vs.any (fun v => decide (x < v))
    | _ => false
  | CondGe => match operands with
    | [x] => vs.any (fun v => decide (x ≤ v))
    | _ => false
  | CondRange => match operands with
    | [lo, hi] => vs.any (fun v => decide (lo ≤ v) && decide (v ≤ hi))
    | _ => false
  | CondSet => vs.any (fun v => operands.any (fun x => decide (v = x)))
  | CondAllSet => operands.all (fun x => vs.any (fun v => decide (v = x)))
  | CondLike => match operands with
    | [x] => match TypedValue.asString x with
      | some pat => vs.any (fun v => match TypedValue.asString v with
        | some s => likeMatch pat.toList s.toList
        | none => false)
      | none => false
    | _ => false

/-- Modelled from the spec: `QueryEntries::checkIfSatisfyCondition` is only
declared in the header. A join-placeholder leaf (`joinIndex != kNoJoins`)
defers to the precomputed join result; otherwise the field is resolved: an
unresolved field satisfies only `Empty`, a resolved one is compared per
condition. The slot cache `idxNo` is a memo of the resolution and is not
observable, so the result does not read it. -/
def checkIfSatisfyCondition {V : Type} [TypedValue V] (e : QueryEntry V)
    (pl : ConstPayload V) (tm : TagsMatcher) : Bool :=
  if e.joinIndex ≠ QueryEntry.kNoJoins then pl.joinSatisfied e.joinIndex
  else match resolve tm pl e.index with
    | none => decide (e.condition = CondEmpty)
    | some vs => compareValues e.condition vs e.values

/-! ## The predicate tree -/

/-- Modelled from the spec: `ExpressionTree<QueryEntry, OpType, 4>` is declared
in `core/expressiontree.h`. The tree is a flattened, order-preserving sequence
of nodes: an operator token precedes the node it governs, a leaf wraps a
`QueryEntry`, and a subgroup marker carries the span (number of following
nodes) of the parenthesized subgroup it opens. -/
inductive Node (V : Type) where
  | Operator (op : OpType)
  | Leaf (entry : QueryEntry V)
  | SubTree (size : Nat)
  deriving DecidableEq, Repr

/-- The class `QueryEntries : public ExpressionTree<QueryEntry, OpType, 4>`:
the flattened node sequence. -/
abbrev QueryEntries (V : Type) := List (Node V)

namespace QueryEntries

/-- Modelled from the spec: `ExpressionTree::IsValue(i)` — the node at linear
position `i` is a leaf (there is no leaf at a position outside the tree). -/
def IsValue {V : Type} (t : QueryEntries V) (i : Nat) : Bool :=
  match t.get? i with
  | some (Node.Leaf _) => true
  | _ => false

/-- The member `bool IsEntry(size_t i) const { return IsValue(i); }`. -/
def IsEntry {V : Type} (t : QueryEntries V) (i : Nat) : Bool :=
  IsValue t i

/-- Modelled from the spec: `QueryEntries::checkIfSatisfyConditions(begin, end,
pl, tm)` is only declared in the header. A left-to-right fold over the node
sequence with a running accumulator `acc` and the current operator `op` (set by
the last operator token, `OpAnd` when there is none). A term `v` is the value
of a leaf or of a subgroup; under `OpNot` it is negated and AND-ed, under
`OpAnd` it is AND-ed, and under `OpOr` the accumulator is OR-ed with the
freshly evaluated remainder of the OR-chain, which starts at `v`. The first
argument bounds the number of steps; the node count always suffices. -/
def checkIfSatisfyConditions {V : Type} (check : QueryEntry V → Bool) :
    Nat → Bool → OpType → List (Node V) → Bool
  | 0, acc, _, _ => acc
  | _ + 1, acc, _, [] => acc
  | fuel + 1, acc, _, Node.Operator o :: rest =>
    checkIfSatisfyConditions check fuel acc o rest
  | fuel + 1, acc, op, Node.Leaf e :: rest =>
    let v := check e
    match op with
    | OpOr => acc || checkIfSatisfyConditions check fuel v OpAnd rest
    | OpNot => checkIfSatisfyConditions check fuel (acc && !v) OpAnd rest
    | OpAnd => checkIfSatisfyConditions check fuel (acc && v) OpAnd rest
  | fuel + 1, acc, op, Node.SubTree n :: rest =>
    let v := checkIfSatisfyConditions check fuel true OpAnd (rest.take n)
    match op with
    | OpOr => acc || checkIfSatisfyConditions check fuel v OpAnd (rest.drop n)
    | OpNot => checkIfSatisfyConditions check fuel (acc && !v) OpAnd (rest.drop n)
    | OpAnd => checkIfSatisfyConditions check fuel (acc && v) OpAnd (rest.drop n)

/-- The member `bool CheckIfSatisfyConditions(const ConstPayload &pl,
TagsMatcher &tm) const`, declared in the header: the fold over the whole tree,
with the accumulator initialised to `true`. -/
def CheckIfSatisfyConditions {V : Type} [TypedValue V] (t : QueryEntries V)
    (pl : ConstPayload V) (tm : TagsMatcher) : Bool :=
  checkIfSatisfyConditions (fun e => checkIfSatisfyCondition e pl tm) t.length true OpAnd t

end QueryEntries

/-! ## Equal-position index finder -/

/-- Modelled from the spec: a maximal AND-only sibling run of the tree, given
by the linear position `start` of its first leaf and by its leaves in sibling
order (operator tokens are markers, not siblings). -/
structure AndGroup (V : Type) where
  start : Nat
  leaves : List (QueryEntry V)
  deriving DecidableEq, Repr

namespace AndGroup

/-- The run `cur` extended with the leaf `e` found at linear position `pos`; a
new run starts at `pos` when there is none. -/
def addLeaf {V : Type} (cur : Option (AndGroup V)) (pos : Nat) (e : QueryEntry V) : AndGroup V :=
  match cur with
  | none => { start := pos, leaves := [e] }
  | some g => { start := g.start, leaves := g.leaves ++ [e] }

end AndGroup

/-- Modelled from the spec: the maximal AND-only sibling runs of a node
sequence, in tree order. `pos` is the linear position of the head of the
sequence and `cur` the run being collected. Consecutive leaves are AND-ed unless
an `OpOr` token or a group boundary stands between them: an `OpAnd` token keeps
the run going, and so does an `OpNot` token, which is a unary prefix of the node
after it and not a connective; an `OpOr` token ends the run; a subgroup ends it
as well, the siblings inside the subgroup are scanned on their own, and a new
run starts after the subgroup. The first argument bounds the number of steps;
the node count always suffices. -/
def andGroups {V : Type} : Nat → Nat → Option (AndGroup V) → List (Node V) → List (AndGroup V)
  | 0, _, cur, _ => cur.toList
  | _ + 1, _, cur, [] => cur.toList
  | fuel + 1, pos, cur, Node.Leaf e :: rest =>
    andGroups fuel (pos + 1) (some (AndGroup.addLeaf cur pos e)) rest
  | fuel + 1, pos, cur, Node.Operator OpAnd :: rest =>
    andGroups fuel (pos + 1) cur rest
  | fuel + 1, pos, cur, Node.Operator OpNot :: rest =>
    andGroups fuel (pos + 1) cur rest
  | fuel + 1, pos, cur, Node.Operator OpOr :: rest =>
    cur.toList ++ andGroups fuel (pos + 1) none rest
  | fuel + 1, pos, cur, Node.SubTree n :: rest =>
    cur.toList ++ andGroups fuel (pos + 1) none (rest.take n)
      ++ andGroups fuel (pos + 1 + n) none (rest.drop n)

namespace QueryEntries

/-- The AND-only runs of the whole tree, in tree order. -/
def groups {V : Type} (t : QueryEntries V) : List (AndGroup V) :=
  andGroups t.length 0 none t

end QueryEntries

/-- A leaf with its distinct flag cleared; every other member is kept. -/
def QueryEntry.clearDistinct {V : Type} (e : QueryEntry V) : QueryEntry V :=
  { e with distinct := false }

/-- A node with the distinct flag of its leaf (if it is a leaf) cleared. -/
def Node.clearDistinct {V : Type} : Node V → Node V
  | Node.Leaf e => Node.Leaf e.clearDistinct
  | n => n

/-- The tree `[Leaf(age, Ge, [18]), AND, Leaf(age, Lt, [65])]` over integer
values. -/
def ageTree : QueryEntries Int :=
  [Node.Leaf ((QueryEntry.mkCond CondGe "age" 0).withValues [18]),
   Node.Operator OpAnd,
   Node.Leaf ((QueryEntry.mkCond CondLt "age" 0).withValues [65])]

/-- The schema with the single field `age`. -/
def ageSchema : TagsMatcher := ⟨["age"]⟩

/-- The row `{age: v}`, with no join satisfied. -/
def ageRow (v : Int) : ConstPayload Int := ⟨[[v]], fun _ => false⟩

instance : TypedValue Int :=
  { (inferInstance : LinearOrder Int) with asString := fun _ => none }

/-! ## Evaluation -/

/-- Steps beyond the node count do not change the result of the fold. -/
theorem checkIfSatisfyConditions_fuel {V : Type} (check : QueryEntry V → Bool) :
    ∀ (f1 f2 : Nat) (acc : Bool) (op : OpType) (t : List (Node V)),
      t.length ≤ f1 → t.length ≤ f2 →
      QueryEntries.checkIfSatisfyConditions check f1 acc op t
        = QueryEntries.checkIfSatisfyConditions check f2 acc op t := by
  intro f1
  induction f1 with
  | zero =>
    intro f2 acc op t h1 _
    have ht : t = [] := List.length_eq_zero.mp (Nat.le_zero.mp h1)
    subst ht
    cases f2 <;> simp [QueryEntries.checkIfSatisfyConditions]
  | succ f1 ih =>
    intro f2 acc op t h1 h2
    cases t with
    | nil => cases f2 <;> simp [QueryEntries.checkIfSatisfyConditions]
    | cons x rest =>
      cases f2 with
      | zero => simp at h2
      | succ f2 =>
        have r1 : rest.length ≤ f1 := by simpa using h1
        have r2 : rest.length ≤ f2 := by simpa using h2
        cases x with
        | Operator o =>
          simp only [QueryEntries.checkIfSatisfyConditions]
          exact ih f2 acc o rest r1 r2
        | Leaf e =>
          cases op <;> simp only [QueryEntries.checkIfSatisfyConditions]
          · rw [ih f2 _ OpAnd rest r1 r2]
          · exact ih f2 _ OpAnd rest r1 r2
          · exact ih f2 _ OpAnd rest r1 r2
        | SubTree n =>
          have t1 : (rest.take n).length ≤ f1 := by rw [List.length_take]; omega
          have t2 : (rest.take n).length ≤ f2 := by rw [List.length_take]; omega
          have d1 : (rest.drop n).length ≤ f1 := by rw [List.length_drop]; omega
          have d2 : (rest.drop n).length ≤ f2 := by rw [List.length_drop]; omega
          cases op <;> simp only [QueryEntries.checkIfSatisfyConditions]
          · rw [ih f2 true OpAnd _ t1 t2, ih f2 _ OpAnd _ d1 d2]
          · rw [ih f2 true OpAnd _ t1 t2, ih f2 _ OpAnd _ d1 d2]
          · rw [ih f2 true OpAnd _ t1 t2, ih f2 _ OpAnd _ d1 d2]

/-- The fold does not see the distinct flags of the leaves when the leaf check
does not. -/
theorem checkIfSatisfyConditions_clearDistinct {V : Type} (check : QueryEntry V → Bool)
    (hcheck : ∀ e, check e.clearDistinct = check e) :
    ∀ (fuel : Nat) (acc : Bool) (op : OpType) (t : List (Node V)),
      QueryEntries.checkIfSatisfyConditions check fuel acc op (t.map Node.clearDistinct)
        = QueryEntries.checkIfSatisfyConditions check fuel acc op t := by
  intro fuel
  induction fuel with
  | zero => intro acc op t; simp [QueryEntries.checkIfSatisfyConditions]
  | succ fuel ih =>
    intro acc op t
    cases t with
    | nil => simp [QueryEntries.checkIfSatisfyConditions]
    | cons x rest =>
      cases x with
      | Operator o =>
        simp only [List.map_cons, Node.clearDistinct, QueryEntries.checkIfSatisfyConditions]
        exact ih acc o rest
      | Leaf e =>
        cases op <;>
          simp only [List.map_cons, Node.clearDistinct, QueryEntries.checkIfSatisfyConditions,
            hcheck, ih]
      | SubTree n =>
        cases op <;>
          simp only [List.map_cons, Node.clearDistinct, QueryEntries.checkIfSatisfyConditions,
            ← List.map_take, ← List.map_drop, ih]

/-- The leaf check reads no distinct flag. -/
theorem checkIfSatisfyCondition_clearDistinct {V : Type} [TypedValue V] (e : QueryEntry V)
    (pl : ConstPayload V) (tm : TagsMatcher) :
    checkIfSatisfyCondition e.clearDistinct pl tm = checkIfSatisfyCondition e pl tm := rfl

/-- C7: for every position `i` within the tree, `IsEntry(i)` returns what
`IsValue(i)` returns, and it is true iff the node at position `i` is a leaf
holding a `QueryEntry` (not an operator or subgroup marker). -/
theorem c7_isEntry_iff_leaf {V : Type} (t : QueryEntries V) (i : Nat) (h : i < t.length) :
    QueryEntries.IsEntry t i = QueryEntries.IsValue t i
    ∧ (QueryEntries.IsEntry t i = true ↔ ∃ e, t.get ⟨i, h⟩ = Node.Leaf e)
    ∧ (QueryEntries.IsEntry t i = false ↔
        (∃ o, t.get ⟨i, h⟩ = Node.Operator o) ∨ (∃ n, t.get ⟨i, h⟩ = Node.SubTree n)) := by
  have hget : t.get? i = some (t.get ⟨i, h⟩) := List.get?_eq_get h
  refine ⟨rfl, ?_, ?_⟩
  · unfold QueryEntries.IsEntry QueryEntries.IsValue
    rw [hget]
    cases t.get ⟨i, h⟩ <;> simp
  · unfold QueryEntries.IsEntry QueryEntries.IsValue
    rw [hget]
    cases t.get ⟨i, h⟩ <;> simp

/-- Witness of C7 on the age tree: position 0 holds a leaf, position 1 the
`AND` token. -/
theorem c7_isEntry_iff_leaf_witness :
    (1 < ageTree.length)
    ∧ (QueryEntries.IsEntry ageTree 1 = QueryEntries.IsValue ageTree 1
      ∧ (QueryEntries.IsEntry ageTree 1 = true ↔ ∃ e, ageTree.get ⟨1, by decide⟩ = Node.Leaf e)
      ∧ (QueryEntries.IsEntry ageTree 1 = false ↔
          (∃ o, ageTree.get ⟨1, by decide⟩ = Node.Operator o)
            ∨ (∃ n, ageTree.get ⟨1, by decide⟩ = Node.SubTree n))) :=
  ⟨by decide, c7_isEntry_iff_leaf ageTree 1 (by decide)⟩

/-- C9: the distinct flag does not influence evaluation. Two leaves that agree
on index, idxNo, condition, values and joinIndex get the same result from
`checkIfSatisfyCondition` for every row and schema, and two trees that are
equal once the distinct flags of their leaves are cleared get the same result
from `CheckIfSatisfyConditions`. -/
theorem c9_distinct_is_evaluation_inert {V : Type} [TypedValue V] (e1 e2 : QueryEntry V)
    (t1 t2 : QueryEntries V) (pl : ConstPayload V) (tm : TagsMatcher)
    (hindex : e1.index = e2.index) (hidxNo : e1.idxNo = e2.idxNo)
    (hcond : e1.condition = e2.condition) (hvalues : e1.values = e2.values)
    (hjoin : e1.joinIndex = e2.joinIndex)
    (htree : t1.map Node.clearDistinct = t2.map Node.clearDistinct) :
    checkIfSatisfyCondition e1 pl tm = checkIfSatisfyCondition e2 pl tm
    ∧ QueryEntries.CheckIfSatisfyConditions t1 pl tm
        = QueryEntries.CheckIfSatisfyConditions t2 pl tm := by
  constructor
  · have : e1.clearDistinct = e2.clearDistinct := by
      cases e1; cases e2; simp_all [QueryEntry.clearDistinct]
    rw [← checkIfSatisfyCondition_clearDistinct e1, ← checkIfSatisfyCondition_clearDistinct e2, this]
  · have hlen : t1.length = t2.length := by
      have := congrArg List.length htree
      simpa using this
    unfold QueryEntries.CheckIfSatisfyConditions
    rw [← checkIfSatisfyConditions_clearDistinct _
          (fun e => checkIfSatisfyCondition_clearDistinct e pl tm) t1.length true OpAnd t1,
        ← checkIfSatisfyConditions_clearDistinct _
          (fun e => checkIfSatisfyCondition_clearDistinct e pl tm) t2.length true OpAnd t2,
        htree, hlen]

/-- Witness of C9: the leaf `age >= 18` with and without the distinct flag,
alone and inside the age tree, on the row `{age: 30}`. -/
theorem c9_distinct_is_evaluation_inert_witness :
    checkIfSatisfyCondition ((QueryEntry.mkCond CondGe "age" 0 true).withValues [18])
        (ageRow 30) ageSchema
      = checkIfSatisfyCondition ((QueryEntry.mkCond CondGe "age" 0 false).withValues [18])
        (ageRow 30) ageSchema
    ∧ QueryEntries.CheckIfSatisfyConditions
        [Node.Leaf ((QueryEntry.mkCond CondGe "age" 0 true).withValues [18]),
         Node.Operator OpAnd,
         Node.Leaf ((QueryEntry.mkCond CondLt "age" 0 true).withValues [65])]
        (ageRow 30) ageSchema
      = QueryEntries.CheckIfSatisfyConditions ageTree (ageRow 30) ageSchema :=
  c9_distinct_is_evaluation_inert _ _ _ _ (ageRow 30) ageSchema rfl rfl rfl rfl rfl rfl

/-! ## Equal-position discovery -/

/-- What ends a run and what does not: an `AND` token and a `NOT` prefix keep
the siblings in one run, wherever the `NOT` stands; an `OR` token splits the
run; a subgroup splits it and its own siblings form a run. -/
theorem andGroups_delimiters {V : Type} (a b c d : QueryEntry V) :
    QueryEntries.groups [Node.Leaf a, Node.Operator OpAnd, Node.Leaf b]
      = [{ start := 0, leaves := [a, b] }]
    ∧ QueryEntries.groups [Node.Leaf a, Node.Operator OpNot, Node.Leaf b]
      = [{ start := 0, leaves := [a, b] }]
    ∧ QueryEntries.groups [Node.Operator OpNot, Node.Leaf a, Node.Leaf b]
      = [{ start := 1, leaves := [a, b] }]
    ∧ QueryEntries.groups [Node.Leaf a, Node.Operator OpOr, Node.Leaf b]
      = [{ start := 0, leaves := [a] }, { start := 2, leaves := [b] }]
    ∧ QueryEntries.groups [Node.Leaf a, Node.SubTree 2, Node.Leaf b, Node.Leaf c, Node.Leaf d]
      = [{ start := 0, leaves := [a] }, { start := 2, leaves := [b, c] },
         { start := 4, leaves := [d] }] := by
  refine ⟨?_, ?_, ?_, ?_, ?_⟩ <;> simp [QueryEntries.groups, andGroups, AndGroup.addLeaf]

/-- C4 (as stated, refuted): `QueryEntry(-1)` is not a join placeholder. Its
`joinIndex` is the sentinel `kNoJoins`, and it equals the default-constructed
leaf, so the join-index constructor does not return a placeholder for every
integer. -/
theorem c4_join_constructor_counterexample :
    ¬ (QueryEntry.mkJoin 0 (-1) : QueryEntry Int).isJoinPlaceholder
    ∧ (QueryEntry.mkJoin 0 (-1) : QueryEntry Int).joinIndex = QueryEntry.kNoJoins
    ∧ (QueryEntry.mkJoin 0 (-1) : QueryEntry Int) = QueryEntry.mkDefault 0
    ∧ ¬ (∀ NotSet j : Int, (QueryEntry.mkJoin NotSet j : QueryEntry Int).isJoinPlaceholder) := by
  have h : ¬ (QueryEntry.mkJoin 0 (-1) : QueryEntry Int).isJoinPlaceholder := fun hp => hp rfl
  exact ⟨h, rfl, rfl, fun hall => h (hall 0 (-1))⟩

/-- C4 (amended): for every integer `j` the leaf built from only a join index
has `joinIndex = j`, condition `CondAny`, an empty value list, an empty field
name and a false distinct flag; it is a join placeholder exactly when `j` is
not `-1`. -/
theorem c4_join_constructor_placeholder_iff {V : Type} (NotSet j : Int) :
    (QueryEntry.mkJoin NotSet j : QueryEntry V).joinIndex = j
    ∧ (QueryEntry.mkJoin NotSet j : QueryEntry V).condition = CondAny
    ∧ (QueryEntry.mkJoin NotSet j : QueryEntry V).values = []
    ∧ (QueryEntry.mkJoin NotSet j : QueryEntry V).index = ""
    ∧ (QueryEntry.mkJoin NotSet j : QueryEntry V).distinct = false
    ∧ ((QueryEntry.mkJoin NotSet j : QueryEntry V).isJoinPlaceholder ↔ j ≠ -1) :=
  ⟨rfl, rfl, rfl, rfl, rfl, Iff.rfl⟩

/-- C5: the leaf built by `QueryEntry(c, f, n, d)` stores `index = f`,
`idxNo = n`, `condition = c`, `distinct = d`, has an empty value list and
`joinIndex = kNoJoins = -1`; when `d` is omitted the distinct flag is false. -/
theorem c5_cond_constructor_fields {V : Type} (c : CondType) (f : String) (n : Int) (d : Bool) :
    (QueryEntry.mkCond c f n d : QueryEntry V)
        = { index := f, idxNo := n, condition := c, distinct := d, values := [], joinIndex := -1 }
    ∧ (QueryEntry.mkCond c f n d : QueryEntry V).joinIndex = QueryEntry.kNoJoins
    ∧ QueryEntry.kNoJoins = -1
    ∧ (QueryEntry.mkCond c f n : QueryEntry V).distinct = false
    ∧ (QueryEntry.mkCond c f n : QueryEntry V) = QueryEntry.mkCond c f n false :=
  ⟨rfl, rfl, rfl, rfl, rfl⟩

/-- C6 (as stated, refuted): the leaf `QueryEntry(CondEq, "a", 0)` has condition
`Eq` and no value at all, so its value count is not the single operand `Eq`
requires; likewise `QueryEntry(CondRange, "a", 0)` has zero values, not two. -/
theorem c6_constructor_arity_counterexample :
    ¬ arityOk (QueryEntry.mkCond CondEq "a" 0 : QueryEntry Int)
    ∧ (QueryEntry.mkCond CondEq "a" 0 : QueryEntry Int).values.length = 0
    ∧ ¬ arityOk (QueryEntry.mkCond CondRange "a" 0 : QueryEntry Int) := by
  refine ⟨?_, rfl, ?_⟩
  · intro h
    have := h 1 rfl
    simp [QueryEntry.mkCond] at this
  · intro h
    have := h 2 rfl
    simp [QueryEntry.mkCond] at this

/-- C6 (amended): no constructor takes operands or checks their count. Every
leaf a constructor returns has an empty value list; the default and join-index
constructors (condition `Any`) therefore meet the arity of their condition,
and the leaf from `QueryEntry(cond, idx, idxN, dist)` meets it exactly when
`cond` is neither `Eq` nor `Range`. -/
theorem c6_constructors_leave_values_empty {V : Type} (NotSet j : Int) (c : CondType)
    (f : String) (n : Int) (d : Bool) :
    (QueryEntry.mkDefault NotSet : QueryEntry V).values = []
    ∧ (QueryEntry.mkJoin NotSet j : QueryEntry V).values = []
    ∧ (QueryEntry.mkCond c f n d : QueryEntry V).values = []
    ∧ arityOk (QueryEntry.mkDefault NotSet : QueryEntry V)
    ∧ arityOk (QueryEntry.mkJoin NotSet j : QueryEntry V)
    ∧ (arityOk (QueryEntry.mkCond c f n d : QueryEntry V) ↔ c ≠ CondEq ∧ c ≠ CondRange) := by
  refine ⟨rfl, rfl, rfl, ?_, ?_, ?_⟩
  · intro k hk
    simp [QueryEntry.mkDefault, requiredArity] at hk ⊢
    exact hk
  · intro k hk
    simp [QueryEntry.mkJoin, requiredArity] at hk ⊢
    exact hk
  · constructor
    · intro h
      constructor
      · rintro rfl
        have := h 1 rfl
        simp [QueryEntry.mkCond] at this
      · rintro rfl
        have := h 2 rfl
        simp [QueryEntry.mkCond] at this
    · rintro ⟨h1, h2⟩ k hk
      cases c <;> simp_all [QueryEntry.mkCond, requiredArity]

/-- C8 (as stated, refuted): whatever value the sentinel `NotSet` has, the
constructor `QueryEntry(cond, idx, idxN, dist)` does not always return a leaf
with `idxNo = NotSet`: `QueryEntry(CondEq, "a", 5)` has `idxNo = 5` and
`QueryEntry(CondEq, "a", 6)` has `idxNo = 6`. -/
theorem c8_idxNo_counterexample :
    (QueryEntry.mkCond CondEq "a" 5 : QueryEntry Int).idxNo = 5
    ∧ (QueryEntry.mkCond CondEq "a" 6 : QueryEntry Int).idxNo = 6
    ∧ ¬ ∃ NotSet : Int, ∀ (c : CondType) (f : String) (n : Int) (d : Bool),
        (QueryEntry.mkCond c f n d : QueryEntry Int).idxNo = NotSet := by
  refine ⟨rfl, rfl, ?_⟩
  rintro ⟨s, hs⟩
  have h5 := hs CondEq "a" 5 false
  have h6 := hs CondEq "a" 6 false
  simp only [QueryEntry.mkCond] at h5 h6
  omega

/-- C8 (amended): the default constructor and the join-index constructor
return a leaf with `idxNo = NotSet`; `QueryEntry(cond, idx, idxN, dist)`
returns a leaf whose `idxNo` is the caller's `idxN`. -/
theorem c8_idxNo_after_construction {V : Type} (NotSet j : Int) (c : CondType)
    (f : String) (n : Int) (d : Bool) :
    (QueryEntry.mkDefault NotSet : QueryEntry V).idxNo = NotSet
    ∧ (QueryEntry.mkJoin NotSet j : QueryEntry V).idxNo = NotSet
    ∧ (QueryEntry.mkCond c f n d : QueryEntry V).idxNo = n :=
  ⟨rfl, rfl, rfl⟩

/-- C10: `QueryEntry(kNoJoins)`, that is `QueryEntry(-1)`, equals the
default-constructed leaf field for field (empty index, `idxNo = NotSet`,
condition `Any`, distinct false, no values, `joinIndex = -1`), and for every
`j` the leaf `QueryEntry(j)` has `joinIndex ≠ kNoJoins` iff `j ≠ -1`. -/
theorem c10_join_constructor_no_joins {V : Type} (NotSet j : Int) :
    (QueryEntry.mkJoin NotSet QueryEntry.kNoJoins : QueryEntry V) = QueryEntry.mkDefault NotSet
    ∧ (QueryEntry.mkJoin NotSet (-1) : QueryEntry V) = QueryEntry.mkDefault NotSet
    ∧ (QueryEntry.mkDefault NotSet : QueryEntry V)
        = { index := "", idxNo := NotSet, condition := CondAny, distinct := false,
            values := [], joinIndex := -1 }
    ∧ ((QueryEntry.mkJoin NotSet j : QueryEntry V).joinIndex ≠ QueryEntry.kNoJoins ↔ j ≠ -1) :=
  ⟨rfl, rfl, rfl, Iff.rfl⟩

end reindexer
